import Mathlib

/-!
Verification of the layout core of `tiktok_captions.py`.

A Python `str` is modelled as a `List Char`; Python integers as `Nat`/`Int`.
The float constants of `TIKTOK_STYLE` are modelled exactly as rationals:
`int(n * 0.051)` becomes `n * 51 / 1000` in natural-number (floor) division,
and likewise for `0.18`, `0.12`, `1.06`.  (For every argument that can reach
these expressions the CPython double computation agrees with the exact
rational floor, so the model is faithful.)  The PIL text-measuring function
`draw.textbbox(..)[2] - [0]` is an arbitrary function `width : List Char → ℤ`,
and the PIL rendering/IO pipeline of `burn_caption` is an opaque parameter:
the claims below quantify over them.
-/

/-- The whitespace characters recognised by Python's `str.split` / `str.strip`
(ASCII part). -/
def pyIsSpace (c : Char) : Bool :=
  c == ' ' || c == '\t' || c == '\n' || c == '\r' || c == '\x0b' || c == '\x0c'

/-- Python `str.strip()`: drop leading and trailing whitespace. -/
def pyStrip (l : List Char) : List Char :=
  (((l.dropWhile pyIsSpace).reverse.dropWhile pyIsSpace)).reverse

/-- Accumulator-style model of Python `str.split()` (no arguments): `acc` is
the word currently being scanned. -/
def pySplitAux : List Char → List Char → List (List Char)
  | [], acc => if acc = [] then [] else [acc]
  | c :: cs, acc =>
    if pyIsSpace c then
      if acc = [] then pySplitAux cs [] else acc :: pySplitAux cs []
    else
      pySplitAux cs (acc ++ [c])

/-- Python `text.split()`: split on runs of whitespace, no empty tokens. -/
def pySplit (l : List Char) : List (List Char) :=
  pySplitAux l []

/-- A word token: non-empty and free of whitespace (what `str.split` emits). -/
def isWord (w : List Char) : Bool :=
  !w.isEmpty && w.all (fun c => !pyIsSpace c)

/-- Join words with single spaces (the shape `current_line` has in
`wrap_text`). -/
def joinWords : List (List Char) → List Char
  | [] => []
  | [w] => w
  | w :: ws => w ++ ' ' :: joinWords ws

/-!
## `wrap_text` (src/tiktok_captions.py lines 61–82)

The loop state is the pair (words still to process, `current_line`).  The
candidate line is `f"{current_line} {word}".strip()`; a fitting candidate
becomes the new `current_line`; otherwise a non-empty `current_line` is
flushed and the word starts a fresh line; a non-empty final `current_line`
is flushed at the end.
-/

/-- The `for word in words` loop of `wrap_text`, with `current_line` made
explicit. -/
def wrapAux (width : List Char → ℤ) (max_width : ℤ) :
    List (List Char) → List Char → List (List Char)
  | [], current_line => if current_line = [] then [] else [current_line]
  | word :: ws, current_line =>
    let test_line := pyStrip (current_line ++ ' ' :: word)
    if width test_line ≤ max_width then
      wrapAux width max_width ws test_line
    else if current_line = [] then
      wrapAux width max_width ws word
    else
      current_line :: wrapAux width max_width ws word

/-- `wrap_text(text, font, max_width, draw)`: the font and draw context enter
only through the measuring function `width` (`draw.textbbox` width of a
candidate line). -/
def wrap_text (text : List Char) (width : List Char → ℤ) (max_width : ℤ) :
    List (List Char) :=
  wrapAux width max_width (pySplit text) []

/-!
## Numeric layout (src/tiktok_captions.py lines 124–147)

`TIKTOK_STYLE` constants: font_size_ratio 0.051, font_size_min 38,
font_size_max 60, line_height_ratio 1.06, max_width_ratio 0.88,
margin_top_ratio 0.18; bottom margin ratio 0.12.  Python `int(x)` on the
non-negative values that arise here is floor, i.e. `Nat` division by the
denominator of the exact rational constant.
-/

/-- `base_size = int(orig_size[0] * TIKTOK_STYLE["font_size_ratio"])`
(line 124). -/
def base_size (W : ℕ) : ℕ :=
  W * 51 / 1000

/-- `base_size = max(font_size_min, min(font_size_max, base_size))`
(line 125): the clamped pre-supersampling font size. -/
def font_base (W : ℕ) : ℕ :=
  max 38 (min 60 (base_size W))

/-- `font_size = base_size * scale` (line 126). -/
def font_size (W scale : ℕ) : ℕ :=
  font_base W * scale

/-- `line_height = int(font_size * TIKTOK_STYLE["line_height_ratio"])`
(line 134). -/
def line_height (fs : ℕ) : ℕ :=
  fs * 106 / 100

/-- `total_height = len(lines) * line_height` (line 135). -/
def total_height (line_count fs : ℕ) : ℕ :=
  line_count * line_height fs

/-- `margin = int(img_scaled.height * 0.12)` (line 141). -/
def bottom_margin (Hs : ℕ) : ℕ :=
  Hs * 12 / 100

/-- `y = int(img_scaled.height * TIKTOK_STYLE["margin_top_ratio"])`
(line 144). -/
def upper_start (Hs : ℕ) : ℕ :=
  Hs * 18 / 100

/-- The `y` computed from the `position` parameter (lines 138–144), on the
supersampled canvas of height `Hs` with text block height `total`.  Python
`//` is floor division, hence `Int.fdiv` in the `center` branch. -/
def start_y (position : String) (Hs total : ℕ) : ℤ :=
  if position = "center" then
    Int.fdiv ((Hs : ℤ) - total) 2
  else if position = "bottom" then
    (Hs : ℤ) - bottom_margin Hs - total
  else
    (upper_start Hs : ℤ)

/-!
## `get_font` (src/tiktok_captions.py lines 43–58)

`FONT_PATHS` is the ordered candidate list.  The filesystem and FreeType
loader are an opaque environment: `pathExists` models `font_path.exists()`
and `loadFont` models `ImageFont.truetype(path, size)` (`none` = the call
raised).  `ImageFont.load_default()` is `defaultFont`; note it takes no size.
The module-level dict `_font_cache` is threaded explicitly as an
association list. -/

def FONT_PATHS : List String :=
  ["TikTokSans36pt-SemiBold.ttf", "TikTokSans36pt-Bold.ttf",
   "TikTokSans16pt-SemiBold.ttf"]

structure FontEnv (Font : Type) where
  pathExists : String → Bool
  loadFont : String → ℕ → Option Font
  defaultFont : Font

/-- The font cache `_font_cache : dict[tuple[str, int], font]`. -/
def FontCache (Font : Type) : Type :=
  List ((String × ℕ) × Font)

/-- Dict lookup in the cache. -/
def cacheLookup {Font : Type} (cache : FontCache Font) (key : String × ℕ) :
    Option Font :=
  match cache with
  | [] => none
  | (k, f) :: rest => if k = key then some f else cacheLookup rest key

/-- The `for font_path in FONT_PATHS` loop (lines 49–56): first candidate
that exists and loads wins; a candidate that is missing or raises is
skipped. -/
def tryPaths {Font : Type} (env : FontEnv Font) (size : ℕ) :
    List String → Option Font
  | [] => none
  | p :: ps =>
    if env.pathExists p then
      match env.loadFont p size with
      | some f => some f
      | none => tryPaths env size ps
    else
      tryPaths env size ps

/-- `get_font(size)`: returns the font and the cache after the call. -/
def get_font {Font : Type} (env : FontEnv Font) (cache : FontCache Font)
    (size : ℕ) : Font × FontCache Font :=
  let key := ("tiktok", size)
  match cacheLookup cache key with
  | some f => (f, cache)
  | none =>
    match tryPaths env size FONT_PATHS with
    | some f => (f, (key, f) :: cache)
    | none => (env.defaultFont, cache)

/-- Number of `ImageFont.truetype` invocations a `get_font` call performs on
the candidate list (0 on a cache hit; loading stops at the first success). -/
def tryPathsLoads {Font : Type} (env : FontEnv Font) (size : ℕ) :
    List String → ℕ
  | [] => 0
  | p :: ps =>
    if env.pathExists p then
      match env.loadFont p size with
      | some _ => 1
      | none => 1 + tryPathsLoads env size ps
    else
      tryPathsLoads env size ps

/-- Load attempts performed by `get_font env cache size`. -/
def get_font_loads {Font : Type} (env : FontEnv Font) (cache : FontCache Font)
    (size : ℕ) : ℕ :=
  match cacheLookup cache ("tiktok", size) with
  | some _ => 0
  | none => tryPathsLoads env size FONT_PATHS

/-!
## `burn_caption` (src/tiktok_captions.py lines 85–173)

Only the control flow around the empty-caption guard (lines 105–112) is
relevant to the claims; the PIL pipeline of the non-empty branch (load,
supersample, draw, downscale, save — lines 115–172) is an opaque parameter
`pipeline` producing the image written to the output path.  The filesystem
is a total map from paths to images; `burn_caption` returns the filesystem
after the call together with the returned path. -/

structure BurnResult (Path Image : Type) where
  fs : Path → Image
  ret : Path

/-- `burn_caption(image_path, caption, output_path, position, supersample)`.
If the caption is empty or whitespace-only the function returns the input
path at once (line 111–112) and touches nothing; otherwise the rendered
image is written to the output path (which defaults to the input path,
lines 106–109). -/
def burn_caption {Path Image : Type} [DecidableEq Path]
    (pipeline : (Path → Image) → Path → List Char → String → ℕ → Image)
    (fs : Path → Image) (image_path : Path) (caption : List Char)
    (output_path : Option Path) (position : String) (supersample : ℕ) :
    BurnResult Path Image :=
  let out := output_path.getD image_path
  if caption = [] ∨ pyStrip caption = [] then
    ⟨fs, image_path⟩
  else
    ⟨fun p => if p = out then pipeline fs image_path caption position supersample
              else fs p,
     out⟩

/-!
## Spec-side definitions

These follow the spec's words where they differ from the code: the spec says
`round(...)` where the code truncates.  `pyRound a b` is Python 3
`round(a / b)` for the exact rational `a / b ≥ 0`: nearest integer, ties to
even. -/

/-- Python 3 `round` of the non-negative rational `a / b` (half to even). -/
def pyRound (a b : ℕ) : ℕ :=
  let q := a / b
  let r := a % b
  if 2 * r < b then q
  else if b < 2 * r then q + 1
  else if q % 2 = 0 then q else q + 1

/-- Modelled from the spec: font size `clamp(round(W × 0.051), 38, 60)`. -/
def spec_font_size_round (W : ℕ) : ℕ :=
  min 60 (max 38 (pyRound (W * 51) 1000))

/-- Modelled from the spec: upper-band start `round(canvas height × 0.18)`. -/
def spec_upper_start_round (Hs : ℕ) : ℕ :=
  pyRound (Hs * 18) 100

/-- Modelled from the spec: line height `round(font_size × 1.06)` and block
height `line_count × round(font_size × 1.06)`. -/
def spec_total_height_round (line_count fs : ℕ) : ℕ :=
  line_count * pyRound (fs * 106) 100

/-- Modelled from the spec: bottom-anchored start
`canvas height − round(canvas height × 0.12) − total block height`. -/
def spec_bottom_start_round (Hs total : ℕ) : ℤ :=
  (Hs : ℤ) - pyRound (Hs * 12) 100 - total

/-- Modelled from the spec, amended: block height with the truncating line
height the code actually uses. -/
def spec_total_height_trunc (line_count fs : ℕ) : ℕ :=
  line_count * (fs * 106 / 100)

/-- Modelled from the spec: the font returned by the first candidate whose
file exists and loads successfully at the requested size. -/
def spec_first_font {Font : Type} (env : FontEnv Font) (size : ℕ) :
    Option Font :=
  FONT_PATHS.findSome?
    (fun p => if env.pathExists p then env.loadFont p size else none)

/-- A concrete measuring function for witnesses: width of a line = its
character count. -/
def demoWidth (l : List Char) : ℤ :=
  l.length

/-- A concrete environment for witnesses: the first candidate file is
missing, the second loads fine. -/
def demoFontEnv : FontEnv ℕ where
  pathExists p := !(p == "TikTokSans36pt-SemiBold.ttf")
  loadFont p size := if p = "TikTokSans36pt-Bold.ttf" then some (100 + size)
                     else none
  defaultFont := 0

/-- A concrete environment in which every font candidate is missing, so
`get_font` falls back to the built-in default font. -/
def failFontEnv : FontEnv ℕ where
  pathExists _ := false
  loadFont _ _ := none
  defaultFont := 0

/-!
## Lemmas about the string model
-/

@[simp] theorem joinWords_nil : joinWords [] = [] := rfl

@[simp] theorem joinWords_singleton (w : List Char) : joinWords [w] = w := rfl

theorem joinWords_cons_cons (w x : List Char) (xs : List (List Char)) :
    joinWords (w :: x :: xs) = w ++ ' ' :: joinWords (x :: xs) := rfl

theorem pyStrip_cons_space {c : Char} (l : List Char) (hc : pyIsSpace c = true) :
    pyStrip (c :: l) = pyStrip l := by
  simp [pyStrip, List.dropWhile_cons, hc]

theorem pyStrip_of_ends (l : List Char)
    (hh : ∀ c, l.head? = some c → pyIsSpace c = false)
    (hl : ∀ c, l.getLast? = some c → pyIsSpace c = false) :
    pyStrip l = l := by
  cases l with
  | nil => rfl
  | cons a t =>
    have ha : pyIsSpace a = false := hh a rfl
    have h1 : (a :: t).dropWhile pyIsSpace = a :: t := by
      simp [List.dropWhile_cons, ha]
    rw [pyStrip, h1]
    have hrev : (a :: t).reverse ≠ [] := by simp
    obtain ⟨b, rb, hb⟩ := List.exists_cons_of_ne_nil hrev
    have hblast : (a :: t).getLast? = some b := by
      rw [← List.head?_reverse, hb]; rfl
    have hbl : pyIsSpace b = false := hl b hblast
    rw [hb]
    have h2 : List.dropWhile pyIsSpace (b :: rb) = b :: rb := by
      simp [List.dropWhile_cons, hbl]
    rw [h2, ← hb, List.reverse_reverse]

theorem isWord_head {w : List Char} (hw : isWord w = true) :
    ∀ c, w.head? = some c → pyIsSpace c = false := by
  intro c hc
  have hmem : c ∈ w := by
    cases w with
    | nil => simp at hc
    | cons a t => simp at hc; simp [hc]
  have := (Bool.and_eq_true _ _ |>.mp hw).2
  rw [List.all_eq_true] at this
  simpa using this c hmem

theorem isWord_getLast {w : List Char} (hw : isWord w = true) :
    ∀ c, w.getLast? = some c → pyIsSpace c = false := by
  intro c hc
  have hmem : c ∈ w := by
    have hne : w ≠ [] := by
      intro h; subst h; simp at hc
    rw [List.getLast?_eq_getLast_of_ne_nil hne] at hc
    have hcc : w.getLast hne = c := Option.some.inj hc
    exact hcc ▸ List.getLast_mem hne
  have := (Bool.and_eq_true _ _ |>.mp hw).2
  rw [List.all_eq_true] at this
  simpa using this c hmem

theorem pyStrip_word {w : List Char} (hw : isWord w = true) :
    pyStrip w = w :=
  pyStrip_of_ends w (isWord_head hw) (isWord_getLast hw)

theorem isWord_of (w : List Char) (h1 : w ≠ [])
    (h2 : ∀ c ∈ w, pyIsSpace c = false) : isWord w = true := by
  simp only [isWord, Bool.and_eq_true, Bool.not_eq_true', List.isEmpty_iff,
    List.all_eq_true]
  exact ⟨by simpa using h1, fun c hc => by simp [h2 c hc]⟩

theorem isWord_ne_nil {w : List Char} (hw : isWord w = true) : w ≠ [] := by
  intro h
  subst h
  simp [isWord] at hw

theorem isWord_chars {w : List Char} (hw : isWord w = true) :
    ∀ c ∈ w, pyIsSpace c = false := by
  intro c hc
  have := (Bool.and_eq_true _ _ |>.mp hw).2
  rw [List.all_eq_true] at this
  simpa using this c hc

theorem pySplitAux_nil (acc : List Char) :
    pySplitAux [] acc = if acc = [] then [] else [acc] := rfl

theorem pySplitAux_cons (c : Char) (cs acc : List Char) :
    pySplitAux (c :: cs) acc =
      if pyIsSpace c then
        if acc = [] then pySplitAux cs [] else acc :: pySplitAux cs []
      else pySplitAux cs (acc ++ [c]) := rfl

theorem pyIsSpace_space : pyIsSpace ' ' = true := by decide

theorem pySplitAux_words : ∀ (l acc : List Char),
    (∀ c ∈ acc, pyIsSpace c = false) →
    ∀ x ∈ pySplitAux l acc, isWord x = true := by
  intro l
  induction l with
  | nil =>
    intro acc hacc x hx
    unfold pySplitAux at hx
    by_cases h : acc = []
    · simp [h] at hx
    · simp [h] at hx
      subst hx
      exact isWord_of x h hacc
  | cons c cs ih =>
    intro acc hacc x hx
    unfold pySplitAux at hx
    by_cases hc : pyIsSpace c
    · simp [hc] at hx
      by_cases h : acc = []
      · simp [h] at hx
        exact ih [] (by simp) x hx
      · simp [h] at hx
        rcases hx with hx | hx
        · subst hx; exact isWord_of x h hacc
        · exact ih [] (by simp) x hx
    · simp [hc] at hx
      refine ih (acc ++ [c]) ?_ x hx
      intro d hd
      rcases List.mem_append.mp hd with hd | hd
      · exact hacc d hd
      · simp at hd
        subst hd
        simpa using hc

theorem pySplit_words (l : List Char) : ∀ x ∈ pySplit l, isWord x = true :=
  pySplitAux_words l [] (by simp)

theorem pySplitAux_word_consume : ∀ (w rest acc : List Char),
    (∀ c ∈ w, pyIsSpace c = false) →
    pySplitAux (w ++ rest) acc = pySplitAux rest (acc ++ w) := by
  intro w
  induction w with
  | nil => intro rest acc _; simp
  | cons c w' ih =>
    intro rest acc hw
    have hc : pyIsSpace c = false := hw c (by simp)
    rw [List.cons_append, pySplitAux_cons, hc]
    simp only [Bool.false_eq_true, if_false]
    rw [ih rest (acc ++ [c]) (fun d hd => hw d (by simp [hd]))]
    simp

theorem pySplitAux_space_cons (rest acc : List Char) :
    pySplitAux (' ' :: rest) acc =
      if acc = [] then pySplitAux rest []
      else acc :: pySplitAux rest [] := by
  rw [pySplitAux_cons, if_pos pyIsSpace_space]

theorem joinWords_cons_of_ne_nil (w : List Char) {ws : List (List Char)}
    (h : ws ≠ []) : joinWords (w :: ws) = w ++ ' ' :: joinWords ws := by
  cases ws with
  | nil => exact absurd rfl h
  | cons x xs => rfl

theorem joinWords_append_single (cws : List (List Char)) (w : List Char)
    (h : cws ≠ []) :
    joinWords (cws ++ [w]) = joinWords cws ++ ' ' :: w := by
  induction cws with
  | nil => exact absurd rfl h
  | cons x xs ih =>
    cases xs with
    | nil => rfl
    | cons y ys =>
      rw [List.cons_append, joinWords_cons_of_ne_nil x (by simp),
        joinWords_cons_of_ne_nil x (List.cons_ne_nil y ys), ih (by simp)]
      simp

theorem joinWords_ne_nil {ws : List (List Char)} (h : ws ≠ [])
    (hws : ∀ w ∈ ws, isWord w = true) : joinWords ws ≠ [] := by
  cases ws with
  | nil => exact absurd rfl h
  | cons w xs =>
    cases xs with
    | nil => exact isWord_ne_nil (hws w (by simp))
    | cons y ys =>
      rw [joinWords_cons_of_ne_nil w (by simp)]
      simp [isWord_ne_nil (hws w (by simp))]

theorem pySplit_joinWords : ∀ (ws : List (List Char)),
    (∀ w ∈ ws, isWord w = true) → pySplit (joinWords ws) = ws := by
  intro ws
  induction ws with
  | nil => intro _; rfl
  | cons w xs ih =>
    intro hws
    have hw : isWord w = true := hws w (by simp)
    cases xs with
    | nil =>
      show pySplitAux w [] = [w]
      rw [show w = w ++ ([] : List Char) by simp,
        pySplitAux_word_consume w [] [] (isWord_chars hw)]
      simp [pySplitAux, isWord_ne_nil hw]
    | cons y ys =>
      rw [joinWords_cons_of_ne_nil w (by simp)]
      show pySplitAux (w ++ ' ' :: joinWords (y :: ys)) [] = _
      rw [pySplitAux_word_consume w _ [] (isWord_chars hw), List.nil_append,
        pySplitAux_space_cons, if_neg (isWord_ne_nil hw)]
      have := ih (fun x hx => hws x (by simp [hx]))
      rw [show pySplitAux (joinWords (y :: ys)) [] = pySplit (joinWords (y :: ys)) from rfl,
        this]

theorem head?_joinWords_nonspace {ws : List (List Char)}
    (hws : ∀ w ∈ ws, isWord w = true) :
    ∀ c, (joinWords ws).head? = some c → pyIsSpace c = false := by
  cases ws with
  | nil => intro c hc; simp [joinWords] at hc
  | cons w xs =>
    have hw : isWord w = true := hws w (by simp)
    cases xs with
    | nil => exact isWord_head hw
    | cons y ys =>
      rw [joinWords_cons_of_ne_nil w (by simp),
        List.head?_append_of_ne_nil _ (isWord_ne_nil hw)]
      exact isWord_head hw

theorem getLast?_joinWords_nonspace : ∀ (ws : List (List Char)),
    (∀ w ∈ ws, isWord w = true) →
    ∀ c, (joinWords ws).getLast? = some c → pyIsSpace c = false := by
  intro ws
  induction ws with
  | nil => intro _ c hc; simp [joinWords] at hc
  | cons w xs ih =>
    intro hws
    have hw : isWord w = true := hws w (by simp)
    cases xs with
    | nil => exact isWord_getLast hw
    | cons y ys =>
      intro c hc
      rw [joinWords_cons_of_ne_nil w (by simp)] at hc
      have hne : ' ' :: joinWords (y :: ys) ≠ [] := by simp
      rw [List.getLast?_append_of_ne_nil _ hne] at hc
      have hne2 : joinWords (y :: ys) ≠ [] :=
        joinWords_ne_nil (by simp) (fun x hx => hws x (by simp [hx]))
      rw [show ' ' :: joinWords (y :: ys) = [' '] ++ joinWords (y :: ys) from rfl,
        List.getLast?_append_of_ne_nil _ hne2] at hc
      exact ih (fun x hx => hws x (by simp [hx])) c hc

/-- The candidate line `f"{current_line} {word}".strip()` equals the
current words extended by the new word, joined with single spaces. -/
theorem test_line_eq (cws : List (List Char)) (w : List Char)
    (hcws : ∀ x ∈ cws, isWord x = true) (hw : isWord w = true) :
    pyStrip (joinWords cws ++ ' ' :: w) = joinWords (cws ++ [w]) := by
  cases cws with
  | nil =>
    show pyStrip (' ' :: w) = joinWords [w]
    rw [pyStrip_cons_space w pyIsSpace_space, pyStrip_word hw]
    rfl
  | cons x xs =>
    have hne : (x :: xs : List (List Char)) ≠ [] := by simp
    rw [← joinWords_append_single _ w hne]
    have hall : ∀ y ∈ (x :: xs) ++ [w], isWord y = true := by
      intro y hy
      rcases List.mem_append.mp hy with hy | hy
      · exact hcws y hy
      · simp at hy; subst hy; exact hw
    exact pyStrip_of_ends _ (head?_joinWords_nonspace hall)
      (getLast?_joinWords_nonspace _ hall)

theorem wrapAux_nil (width : List Char → ℤ) (max_width : ℤ) (cl : List Char) :
    wrapAux width max_width [] cl = if cl = [] then [] else [cl] := rfl

theorem wrapAux_cons (width : List Char → ℤ) (max_width : ℤ) (w cl : List Char)
    (ws : List (List Char)) :
    wrapAux width max_width (w :: ws) cl =
      if width (pyStrip (cl ++ ' ' :: w)) ≤ max_width then
        wrapAux width max_width ws (pyStrip (cl ++ ' ' :: w))
      else if cl = [] then wrapAux width max_width ws w
      else cl :: wrapAux width max_width ws w := rfl

theorem joinWords_eq_nil {cws : List (List Char)}
    (hcws : ∀ w ∈ cws, isWord w = true) (h : joinWords cws = []) :
    cws = [] := by
  by_contra hne
  exact joinWords_ne_nil hne hcws h

/-- Invariant of the `wrap_text` loop: every emitted line is a non-empty
space-join of word tokens, and it either fits in `max_width` or is a single
word. -/
theorem wrapAux_lines (width : List Char → ℤ) (max_width : ℤ) :
    ∀ (rem cws : List (List Char)),
    (∀ w ∈ rem, isWord w = true) → (∀ w ∈ cws, isWord w = true) →
    (cws = [] ∨ width (joinWords cws) ≤ max_width ∨ cws.length = 1) →
    ∀ l ∈ wrapAux width max_width rem (joinWords cws),
      ∃ ws, ws ≠ [] ∧ (∀ w ∈ ws, isWord w = true) ∧ l = joinWords ws ∧
        (width l ≤ max_width ∨ ws.length = 1) := by
  intro rem
  induction rem with
  | nil =>
    intro cws _ hcws hP l hl
    rw [wrapAux_nil] at hl
    by_cases hc : cws = []
    · simp [hc] at hl
    · rw [if_neg (joinWords_ne_nil hc hcws)] at hl
      simp at hl
      subst hl
      exact ⟨cws, hc, hcws, rfl, hP.resolve_left hc⟩
  | cons w ws ih =>
    intro cws hrem hcws hP l hl
    have hw : isWord w = true := hrem w (by simp)
    have hrem' : ∀ x ∈ ws, isWord x = true := fun x hx => hrem x (by simp [hx])
    have hcw : ∀ x ∈ cws ++ [w], isWord x = true := by
      intro x hx
      rcases List.mem_append.mp hx with hx | hx
      · exact hcws x hx
      · simp at hx; subst hx; exact hw
    rw [wrapAux_cons, test_line_eq cws w hcws hw] at hl
    by_cases hfit : width (joinWords (cws ++ [w])) ≤ max_width
    · rw [if_pos hfit] at hl
      exact ih (cws ++ [w]) hrem' hcw (Or.inr (Or.inl hfit)) l hl
    · rw [if_neg hfit] at hl
      by_cases hnil : joinWords cws = []
      · rw [if_pos hnil] at hl
        have : l ∈ wrapAux width max_width ws (joinWords [w]) := by
          simpa using hl
        exact ih [w] hrem' (by simpa using hw) (Or.inr (Or.inr rfl)) l this
      · rw [if_neg hnil] at hl
        have hcne : cws ≠ [] := fun h => hnil (by simp [h])
        rcases List.mem_cons.mp hl with hl | hl
        · subst hl
          exact ⟨cws, hcne, hcws, rfl, hP.resolve_left hcne⟩
        · have : l ∈ wrapAux width max_width ws (joinWords [w]) := by
            simpa using hl
          exact ih [w] hrem' (by simpa using hw) (Or.inr (Or.inr rfl)) l this

/-- Invariant of the `wrap_text` loop: the words of the emitted lines, in
order, are exactly the pending current-line words followed by the
unprocessed words. -/
theorem wrapAux_join (width : List Char → ℤ) (max_width : ℤ) :
    ∀ (rem cws : List (List Char)),
    (∀ w ∈ rem, isWord w = true) → (∀ w ∈ cws, isWord w = true) →
    ((wrapAux width max_width rem (joinWords cws)).map pySplit).flatten =
      cws ++ rem := by
  intro rem
  induction rem with
  | nil =>
    intro cws _ hcws
    rw [wrapAux_nil]
    by_cases hc : cws = []
    · simp [hc]
    · rw [if_neg (joinWords_ne_nil hc hcws)]
      simp [pySplit_joinWords cws hcws]
  | cons w ws ih =>
    intro cws hrem hcws
    have hw : isWord w = true := hrem w (by simp)
    have hrem' : ∀ x ∈ ws, isWord x = true := fun x hx => hrem x (by simp [hx])
    have hcw : ∀ x ∈ cws ++ [w], isWord x = true := by
      intro x hx
      rcases List.mem_append.mp hx with hx | hx
      · exact hcws x hx
      · simp at hx; subst hx; exact hw
    rw [wrapAux_cons, test_line_eq cws w hcws hw]
    by_cases hfit : width (joinWords (cws ++ [w])) ≤ max_width
    · rw [if_pos hfit, ih (cws ++ [w]) hrem' hcw]
      simp
    · rw [if_neg hfit]
      by_cases hnil : joinWords cws = []
      · rw [if_pos hnil]
        have hc : cws = [] := joinWords_eq_nil hcws hnil
        have := ih [w] hrem' (by simpa using hw)
        simp only [joinWords_singleton] at this
        rw [this, hc]
        simp
      · rw [if_neg hnil]
        have := ih [w] hrem' (by simpa using hw)
        simp only [joinWords_singleton] at this
        simp only [List.map_cons, List.flatten_cons, this,
          pySplit_joinWords cws hcws]
        simp

theorem pyStrip_all_space {l : List Char} (h : ∀ c ∈ l, pyIsSpace c = true) :
    pyStrip l = [] := by
  have hd : l.dropWhile pyIsSpace = [] := by
    rw [List.dropWhile_eq_nil_iff]
    intro c hc
    exact h c hc
  simp [pyStrip, hd]

theorem tryPaths_eq_findSome {Font : Type} (env : FontEnv Font) (size : ℕ) :
    ∀ ps : List String,
      tryPaths env size ps =
        ps.findSome?
          (fun p => if env.pathExists p then env.loadFont p size else none) := by
  intro ps
  induction ps with
  | nil => rfl
  | cons p ps ih =>
    rw [List.findSome?_cons]
    by_cases hp : env.pathExists p
    · cases hl : env.loadFont p size with
      | none => simp [tryPaths, hp, hl, ih]
      | some f => simp [tryPaths, hp, hl]
    · simp [tryPaths, hp, ih]

/-!
## Claims
-/

/-- Claim C1: for every input image and every caption that is empty or
whitespace-only, `burn_caption` is a no-op — it returns before touching the
image (line 111–112), so the filesystem is unchanged and the returned path
is the input path; the output image is pixel-identical to the input image,
regardless of the output path, position mode, and supersample factor. -/
theorem c1_blank_caption_noop {Path Image : Type} [DecidableEq Path]
    (pipeline : (Path → Image) → Path → List Char → String → ℕ → Image)
    (fs : Path → Image) (image_path : Path) (caption : List Char)
    (output_path : Option Path) (position : String) (supersample : ℕ)
    (h : ∀ c ∈ caption, pyIsSpace c = true) :
    (burn_caption pipeline fs image_path caption output_path position
        supersample).fs = fs ∧
    (burn_caption pipeline fs image_path caption output_path position
        supersample).ret = image_path := by
  have hblank : caption = [] ∨ pyStrip caption = [] :=
    Or.inr (pyStrip_all_space h)
  have hcond : (caption = [] ∨ pyStrip caption = []) ↔ True :=
    iff_true_intro hblank
  constructor <;> simp [burn_caption, hcond]

/-- Witness for C1: a three-space caption on a concrete filesystem, with an
explicit output path, is a no-op. -/
theorem c1_witness :
    (burn_caption (fun _ _ _ _ _ => (0 : ℕ)) (fun _ => (7 : ℕ)) (3 : ℕ)
        [' ', ' ', ' '] (some 5) "upper" 2).fs = (fun _ => (7 : ℕ)) ∧
    (burn_caption (fun _ _ _ _ _ => (0 : ℕ)) (fun _ => (7 : ℕ)) (3 : ℕ)
        [' ', ' ', ' '] (some 5) "upper" 2).ret = 3 :=
  c1_blank_caption_noop _ _ _ _ _ _ _ (by decide)

/-- Counterexample to C2 as stated: at image width 1010 the code truncates
int(1010 × 0.051) = int(51.51) = 51, while clamp(round(1010 × 0.051), 38, 60)
= 52. -/
theorem c2_counterexample : font_base 1010 ≠ spec_font_size_round 1010 := by
  decide

/-- Claim C2 (amended): the pre-supersampling font size is
clamp(trunc(W × 0.051), 38, 60) — truncation, not rounding; the claimed
instances W = 828 ↦ 42, W = 200 ↦ 38, W = 2000 ↦ 60 all hold. -/
theorem c2_font_size_clamp (W : ℕ) :
    font_base W = min 60 (max 38 (W * 51 / 1000)) ∧
    font_base 828 = 42 ∧ font_base 200 = 38 ∧ font_base 2000 = 60 := by
  refine ⟨?_, by decide, by decide, by decide⟩
  unfold font_base base_size
  omega

/-- Counterexample to C3 as stated: on a 1920-high canvas (supersample 1,
i.e. output coordinates) the upper-band start is int(1920 × 0.18) = 345,
not round(1920 × 0.18) = 346. -/
theorem c3_counterexample :
    start_y "upper" 1920 100 ≠ (spec_upper_start_round 1920 : ℤ) := by
  decide

/-- Claim C3 (amended): in upper mode the start offset is the truncation
int(canvas height × 0.18), independent of the number of wrapped lines and
of the block height; for a 1080×1920 canvas it is 345 in output
coordinates (691 on the default 2× supersampled canvas), not 346. -/
theorem c3_upper_start (Hs total total' : ℕ) :
    start_y "upper" Hs total = (Hs * 18 / 100 : ℕ) ∧
    start_y "upper" Hs total = start_y "upper" Hs total' ∧
    start_y "upper" 1920 0 = 345 ∧ start_y "upper" 3840 0 = 691 := by
  have hupper : ∀ t : ℕ, start_y "upper" Hs t = (upper_start Hs : ℤ) := by
    intro t
    unfold start_y
    rw [if_neg (by decide), if_neg (by decide)]
  refine ⟨?_, ?_, by decide, by decide⟩
  · rw [hupper total]; rfl
  · rw [hupper total, hupper total']

/-- Claim C4: for every caption, measuring function and positive max width,
every line produced by `wrap_text` measures within `max_width` or consists
of exactly one word (an over-wide single word is emitted verbatim, never
split). -/
theorem c4_wrap_width (text : List Char) (width : List Char → ℤ)
    (max_width : ℤ) (hpos : 0 < max_width) :
    ∀ l ∈ wrap_text text width max_width,
      width l ≤ max_width ∨ (pySplit l).length = 1 := by
  intro l hl
  have hmem : l ∈ wrapAux width max_width (pySplit text) (joinWords []) := by
    simpa [wrap_text] using hl
  obtain ⟨ws, hne, hws, hleq, hP⟩ :=
    wrapAux_lines width max_width (pySplit text) [] (pySplit_words text)
      (by simp) (Or.inl rfl) l hmem
  rcases hP with hP | hP
  · exact Or.inl hP
  · right
    rw [hleq, pySplit_joinWords ws hws]
    exact hP

/-- Witness for C4: with character-count measuring and max width 2, the text
"ab cd" wraps to ["ab", "cd"] and the emitted line "ab" fits. -/
theorem c4_witness :
    ['a', 'b'] ∈ wrap_text ['a', 'b', ' ', 'c', 'd'] demoWidth 2 ∧
    (demoWidth ['a', 'b'] ≤ 2 ∨ (pySplit ['a', 'b']).length = 1) :=
  ⟨by decide,
   c4_wrap_width ['a', 'b', ' ', 'c', 'd'] demoWidth 2 (by decide)
     ['a', 'b'] (by decide)⟩

/-- Claim C5: wrapping preserves the whitespace-collapsed word sequence
exactly — the words of all wrapped lines, concatenated in order, are
`text.split()` (newlines are ordinary whitespace to `split`), and empty
input text yields an empty list of lines. -/
theorem c5_words_preserved (text : List Char) (width : List Char → ℤ)
    (max_width : ℤ) :
    ((wrap_text text width max_width).map pySplit).flatten = pySplit text ∧
    wrap_text [] width max_width = [] := by
  constructor
  · have := wrapAux_join width max_width (pySplit text) []
      (pySplit_words text) (by simp)
    simpa [wrap_text] using this
  · rfl

/-- Counterexample to C6 as stated: at font size 76 (= 38 × supersample 2,
a reachable size) the code's line height is int(76 × 1.06) = 80, not
round(76 × 1.06) = 81, so a one-line block is 80 high, not 81. -/
theorem c6_counterexample :
    total_height 1 76 ≠ spec_total_height_round 1 76 := by decide

/-- Claim C6 (amended): the block height equals
line count × int(font_size × 1.06) with the truncating line height, in every
placement mode (the block height does not depend on the mode). -/
theorem c6_total_height (n fs : ℕ) :
    total_height n fs = spec_total_height_trunc n fs ∧
    total_height n fs = n * line_height fs ∧
    line_height fs = fs * 106 / 100 :=
  ⟨rfl, rfl, rfl⟩

/-- Counterexample to C7 as stated: at canvas height 1913 and block height
100 the code's bottom margin is int(1913 × 0.12) = 229 giving start 1584,
while the claimed round(1913 × 0.12) = 230 gives 1583. -/
theorem c7_counterexample :
    start_y "bottom" 1913 100 ≠ spec_bottom_start_round 1913 100 := by decide

/-- Claim C7 (amended): in bottom mode the start offset is
canvas height − int(canvas height × 0.12) − block height (truncating
margin); equivalently start + block height = canvas height − margin. -/
theorem c7_bottom_start (Hs total : ℕ) :
    start_y "bottom" Hs total = (Hs : ℤ) - bottom_margin Hs - total ∧
    start_y "bottom" Hs total + total = (Hs : ℤ) - bottom_margin Hs ∧
    bottom_margin Hs = Hs * 12 / 100 := by
  have hb : start_y "bottom" Hs total =
      (Hs : ℤ) - bottom_margin Hs - total := by
    unfold start_y
    rw [if_neg (by decide), if_pos rfl]
  refine ⟨hb, ?_, rfl⟩
  rw [hb]
  ring

/-- Claim C8: on a cache miss, `get_font` walks the ordered candidate list
and returns (and caches) the font of the first candidate that exists and
loads at the requested size; a missing or failing candidate is skipped
non-fatally; if every candidate fails, the built-in default font is
returned (size ignored, no cache entry) — the call never raises, being a
total function of the environment. -/
theorem c8_get_font_walk {Font : Type} (env : FontEnv Font)
    (cache : FontCache Font) (size : ℕ)
    (hmiss : cacheLookup cache ("tiktok", size) = none) :
    (∀ f, spec_first_font env size = some f →
        get_font env cache size = (f, (("tiktok", size), f) :: cache)) ∧
    (spec_first_font env size = none →
        get_font env cache size = (env.defaultFont, cache)) := by
  constructor
  · intro f hf
    have ht : tryPaths env size FONT_PATHS = some f := by
      rw [tryPaths_eq_findSome]
      exact hf
    simp [get_font, hmiss, ht]
  · intro hf
    have ht : tryPaths env size FONT_PATHS = none := by
      rw [tryPaths_eq_findSome]
      exact hf
    simp [get_font, hmiss, ht]

/-- Witness for C8: with the first candidate missing and the second loading,
`get_font` returns and caches the second candidate's font. -/
theorem c8_witness :
    get_font demoFontEnv ([] : FontCache ℕ) 38 =
      (138, (("tiktok", 38), 138) :: []) :=
  (c8_get_font_walk demoFontEnv [] 38 rfl).1 138 (by decide)

/-- Counterexample to C9 as stated: when every candidate fails, `get_font`
falls back to the default font WITHOUT populating the cache — after the
call the key ("tiktok", 38) is still absent, so not every call populates
the cache under its key. -/
theorem c9_counterexample :
    cacheLookup (get_font failFontEnv ([] : FontCache ℕ) 38).2
      ("tiktok", 38) = none := by decide

/-- Claim C9 (amended): when some candidate loads successfully, `get_font`
populates the cache under ("tiktok", size) and is idempotent — a second
call with the same size is a cache hit that performs no further load,
leaves the cache unchanged, and returns the same font handle; when every
candidate fails, the default font is returned and the cache is left
unchanged (not populated). -/
theorem c9_cache_idem {Font : Type} (env : FontEnv Font)
    (cache : FontCache Font) (size : ℕ)
    (hmiss : cacheLookup cache ("tiktok", size) = none) :
    (∀ f, tryPaths env size FONT_PATHS = some f →
        cacheLookup (get_font env cache size).2 ("tiktok", size) =
          some (get_font env cache size).1 ∧
        get_font env (get_font env cache size).2 size =
          ((get_font env cache size).1, (get_font env cache size).2) ∧
        get_font_loads env (get_font env cache size).2 size = 0) ∧
    (tryPaths env size FONT_PATHS = none →
        (get_font env cache size).2 = cache ∧
        (get_font env cache size).1 = env.defaultFont) := by
  constructor
  · intro f ht
    have hres : get_font env cache size =
        (f, (("tiktok", size), f) :: cache) := by
      simp [get_font, hmiss, ht]
    rw [hres]
    refine ⟨by simp [cacheLookup], ?_, ?_⟩
    · simp [get_font, cacheLookup]
    · simp [get_font_loads, cacheLookup]
  · intro ht
    constructor <;> simp [get_font, hmiss, ht]

/-- Witness for C9 (amended): after a first call in the two-candidate demo
environment, the cache holds the loaded font and a second call is a pure
cache hit with zero load attempts. -/
theorem c9_witness :
    cacheLookup (get_font demoFontEnv ([] : FontCache ℕ) 38).2
      ("tiktok", 38) = some (get_font demoFontEnv ([] : FontCache ℕ) 38).1 ∧
    get_font demoFontEnv (get_font demoFontEnv ([] : FontCache ℕ) 38).2 38 =
      ((get_font demoFontEnv ([] : FontCache ℕ) 38).1,
       (get_font demoFontEnv ([] : FontCache ℕ) 38).2) ∧
    get_font_loads demoFontEnv
      (get_font demoFontEnv ([] : FontCache ℕ) 38).2 38 = 0 :=
  (c9_cache_idem demoFontEnv [] 38 rfl).1 138 (by decide)

/-- Claim C10: `wrap_text` never emits an empty line, for every input text
(including empty and whitespace-only), every measuring function, and every
max width. -/
theorem c10_no_empty_line (text : List Char) (width : List Char → ℤ)
    (max_width : ℤ) :
    ∀ l ∈ wrap_text text width max_width, l ≠ [] := by
  intro l hl
  have hmem : l ∈ wrapAux width max_width (pySplit text) (joinWords []) := by
    simpa [wrap_text] using hl
  obtain ⟨ws, hne, hws, hleq, _⟩ :=
    wrapAux_lines width max_width (pySplit text) [] (pySplit_words text)
      (by simp) (Or.inl rfl) l hmem
  rw [hleq]
  exact joinWords_ne_nil hne hws

/-- Witness for C10: the single wrapped line of the text "xy" is
non-empty. -/
theorem c10_witness :
    ['x', 'y'] ∈ wrap_text ['x', 'y'] demoWidth 9 ∧
    ['x', 'y'] ≠ ([] : List Char) :=
  ⟨by decide, c10_no_empty_line ['x', 'y'] demoWidth 9 ['x', 'y'] (by decide)⟩
